import Mathlib

/-!
# Verification of the alpha-monday checkpoint engine

Shallow embedding of the checkpoint scheduling and computation engine of
the `alpha-monday` repository, together with proofs of its specified
properties.

The embedding follows the Go source:
* `internal/worker/steps.go` — decimal arithmetic (`calculateReturnPct`,
  `subtractDecimalStrings`, `parseDecimal`, `parsePositiveDecimal`,
  `formatDecimal`), date helpers (`parseDate`,
  `previousTradingDayFallback`), the daily cycle (`runDailyCheckpoint`),
  the 14-day loop (`runDailyCheckpoints`) and `persistCheckpoint`;
* `internal/db/store_write.go` — `CreateCheckpointWithMetrics` and
  `UpdateBatchStatus` over an explicit relational-store state;
* `internal/integrations/retry/retry.go` — `Retry.Do` and `nextDelay`.

Go's `math/big.Rat` is modelled by `BigRat`, an exact
numerator/denominator pair.  `big.Rat` additionally reduces the pair by
their gcd after every operation; reduction does not change the
represented rational value, and every observation the program makes of a
`big.Rat` (`FloatString`, `Sign`) depends only on that value (for
`FloatString` this is `floatString8_scale` below), so the reduction step
is omitted.  `BigRat.toRat` maps the pair to Lean's `ℚ` and the
`toRat_sub` / `toRat_mul` / `toRat_div` lemmas certify that the modelled
operations are genuine rational arithmetic.

`big.Rat.SetString` is modelled for its base-10 decimal forms (signed
decimal floats with optional `e`/`E` exponent, and `a/b` integer
fractions); the base-prefixed (hex/octal/binary), digit-separator and
`p`-exponent forms of the Go parser are outside the decimal-string
domain the specification quantifies over and are omitted.
`big.Rat.FloatString(8)` is modelled by `floatString8` (round to
nearest, halves away from zero, exactly 8 fractional digits), following
the algorithm of the Go standard library.
-/

deriving instance DecidableEq for Except

/-- Go's `math/big.Rat`: an exact rational as a numerator/denominator
pair.  The denominator is kept positive by every constructor and
operation below (`big.Rat` does the same). -/
structure BigRat where
  num : Int
  den : Nat
deriving DecidableEq, Repr

/-- `big.NewRat(n, 1)`. -/
def BigRat.ofInt (n : Int) : BigRat :=
  ⟨n, 1⟩

/-- `big.Rat.Sub`. -/
def BigRat.sub (a b : BigRat) : BigRat :=
  ⟨a.num * b.den - b.num * a.den, a.den * b.den⟩

/-- `big.Rat.Mul`. -/
def BigRat.mul (a b : BigRat) : BigRat :=
  ⟨a.num * b.num, a.den * b.den⟩

/-- `big.Rat.Quo`: division, with the sign carried by the numerator and
the denominator kept positive.  (Go panics on a zero divisor; here a
zero divisor yields a zero denominator, which no verified code path
produces.) -/
def BigRat.div (a b : BigRat) : BigRat :=
  if 0 ≤ b.num then ⟨a.num * b.den, a.den * b.num.toNat⟩
  else ⟨-(a.num * b.den), a.den * (-b.num).toNat⟩

/-- `big.Rat.Sign`: the sign of the numerator (the denominator is
positive). -/
def BigRat.sign (a : BigRat) : Int :=
  a.num.sign

/-- The rational value represented by a `BigRat`. -/
def BigRat.toRat (a : BigRat) : Rat :=
  (a.num : Rat) / (a.den : Rat)

/-- Whitespace predicate of Go's `strings.TrimSpace` (`unicode.IsSpace`),
restricted to the ASCII and Latin-1 space characters; the further Unicode
space classes are not produced by any input source of this program. -/
def goIsSpace (c : Char) : Bool :=
  [' ', '\t', '\n', '\x0b', '\x0c', '\r', '\u0085', ' '].contains c

/-- Go's `strings.TrimSpace`: drop leading and trailing whitespace. -/
def goTrim (s : String) : String :=
  ⟨((s.data.dropWhile goIsSpace).reverse.dropWhile goIsSpace).reverse⟩

/-- All characters are ASCII digits (and there is no other character). -/
def allDigits (cs : List Char) : Bool :=
  cs.all (fun c => c.isDigit)

/-- Numeric value of a list of ASCII digit characters (base 10). -/
def digitsVal (cs : List Char) : Nat :=
  cs.foldl (fun acc c => acc * 10 + (c.toNat - 48)) 0

/-- Strip one optional leading sign; returns (isNegative, rest). -/
def parseSign : List Char → Bool × List Char
  | '+' :: cs => (false, cs)
  | '-' :: cs => (true, cs)
  | cs => (false, cs)

/-- Character is not the fraction separator `/`. -/
def notSlashChar (c : Char) : Bool :=
  !(c == '/')

/-- Character is not the radix point `.`. -/
def notDotChar (c : Char) : Bool :=
  !(c == '.')

/-- Character is not an exponent marker `e`/`E`. -/
def notExpChar (c : Char) : Bool :=
  !(c == 'e' || c == 'E')

/-- Parse the `a/b` fraction form of `big.Rat.SetString` (base 10):
optionally signed integer numerator, unsigned non-zero integer
denominator. -/
def parseFraction (cs : List Char) : Option BigRat :=
  let sp := parseSign cs
  let num := sp.2.takeWhile notSlashChar
  match sp.2.dropWhile notSlashChar with
  | '/' :: den =>
    if num ≠ [] ∧ allDigits num ∧ den ≠ [] ∧ allDigits den ∧ digitsVal den ≠ 0 then
      some ⟨(if sp.1 then -1 else 1) * (digitsVal num : Int), digitsVal den⟩
    else none
  | _ => none

/-- Parse a decimal mantissa `ddd[.ddd]` (at least one digit overall);
returns the digits' value together with the number of fractional
digits. -/
def parseMantissa (mant : List Char) : Option (Nat × Nat) :=
  let ip := mant.takeWhile notDotChar
  match mant.dropWhile notDotChar with
  | [] => if ip ≠ [] ∧ allDigits ip then some (digitsVal ip, 0) else none
  | '.' :: fp =>
    if allDigits ip ∧ allDigits fp ∧ (ip ≠ [] ∨ fp ≠ []) then
      some (digitsVal (ip ++ fp), fp.length)
    else none
  | _ => none

/-- Parse an optional decimal exponent `e±ddd` / `E±ddd`. -/
def parseExponent : List Char → Option Int
  | [] => some 0
  | e :: rest =>
    if e = 'e' ∨ e = 'E' then
      let sp := parseSign rest
      if sp.2 ≠ [] ∧ allDigits sp.2 then
        some (if sp.1 then -(digitsVal sp.2 : Int) else (digitsVal sp.2 : Int))
      else none
    else none

/-- Scale a mantissa value by `10 ^ (exp - scale)` (negative mantissa
sign applied by the caller). -/
def applyExponent (neg : Bool) (mant : Nat) (scale : Nat) (exp : Int) : BigRat :=
  let sign : Int := if neg then -1 else 1
  let e := exp - (scale : Int)
  if 0 ≤ e then ⟨sign * (mant : Int) * (10 : Int) ^ e.toNat, 1⟩
  else ⟨sign * (mant : Int), 10 ^ (-e).toNat⟩

/-- `big.Rat.SetString` on its base-10 forms: either an integer fraction
`a/b`, or an optionally signed decimal float with optional `e`/`E`
exponent.  Returns `none` exactly when Go's parser reports failure on
such strings. -/
def ratSetString (s : String) : Option BigRat :=
  let cs := s.data
  if cs.contains '/' then parseFraction cs
  else
    let sp := parseSign cs
    match parseMantissa (sp.2.takeWhile notExpChar) with
    | none => none
    | some (m, scale) =>
      match parseExponent (sp.2.dropWhile notExpChar) with
      | none => none
      | some exp => some (applyExponent sp.1 m scale exp)

/-- `parseDecimal` of `internal/worker/steps.go`: trim whitespace, require
a non-empty string, and parse it with `big.Rat.SetString`. -/
def parseDecimal (value : String) : Except String BigRat :=
  let v := goTrim value
  if v = "" then .error "value is required"
  else
    match ratSetString v with
    | none => .error ("invalid decimal " ++ v)
    | some rat => .ok rat

/-- `parsePositiveDecimal` of `internal/worker/steps.go`: a parsed decimal
with `Sign() > 0`. -/
def parsePositiveDecimal (value : String) (label : String) : Except String BigRat :=
  match parseDecimal value with
  | .error e => .error e
  | .ok rat =>
    if rat.sign ≤ 0 then .error (label ++ " value must be positive") else .ok rat

/-- Decimal digit characters of a natural number, most significant first,
accumulated onto `acc`; the fuel argument bounds the recursion (any fuel
at least the digit count of `n` gives the exact digits, and `n` itself is
always enough). -/
def natToDigitsFuel : Nat → Nat → List Char → List Char
  | 0, _, acc => acc
  | fuel + 1, n, acc =>
    if n = 0 then acc
    else natToDigitsFuel fuel (n / 10) (Nat.digitChar (n % 10) :: acc)

/-- Decimal representation of a natural number (Go's `nat.utoa(10)`). -/
def natDecimalRepr (n : Nat) : String :=
  if n = 0 then "0" else ⟨natToDigitsFuel n n []⟩

/-- Left-pad a string with `'0'` up to width `w` (the fractional-digit
padding of `big.Rat.FloatString`). -/
def padZeros (w : Nat) (s : String) : String :=
  ⟨List.replicate (w - s.length) '0' ++ s.data⟩

/-- `metricPrecisionScale` of `internal/worker/steps.go`. -/
def metricPrecisionScale : Nat := 8

/-- `big.Rat.FloatString(8)`: the decimal rendering of a rational with
exactly 8 fractional digits, last digit rounded to nearest with halves
away from zero, and a `-` sign taken from the value's sign.  Follows the
Go standard-library algorithm (quotient/remainder of `|num| * 10^8` by
the denominator, with the round-up carry when twice the remainder reaches
the denominator). -/
def floatString8 (q : BigRat) : String :=
  let scaled := q.num.natAbs * 10 ^ metricPrecisionScale
  let whole := scaled / q.den
  let rem := scaled % q.den
  let rounded := if q.den ≤ 2 * rem then whole + 1 else whole
  let ip := rounded / 10 ^ metricPrecisionScale
  let fp := rounded % 10 ^ metricPrecisionScale
  (if q.num < 0 then "-" else "") ++ natDecimalRepr ip ++ "." ++
    padZeros metricPrecisionScale (natDecimalRepr fp)

/-- `formatDecimal` of `internal/worker/steps.go`:
`value.FloatString(metricPrecisionScale)`. -/
def formatDecimal (value : BigRat) : String :=
  floatString8 value

/-- `calculateReturnPct` of `internal/worker/steps.go`: parse both
operands as positive decimals and render
`(current - initial) * 100 / initial` at fixed scale. -/
def calculateReturnPct (initialValue currentValue : String) : Except String String :=
  match parsePositiveDecimal initialValue "initial" with
  | .error e => .error e
  | .ok initial =>
    match parsePositiveDecimal currentValue "current" with
    | .error e => .error e
    | .ok current =>
      let diff := current.sub initial
      let diff := diff.mul (BigRat.ofInt 100)
      .ok (formatDecimal (diff.div initial))

/-- `subtractDecimalStrings` of `internal/worker/steps.go`. -/
def subtractDecimalStrings (left right : String) : Except String String :=
  match parseDecimal left with
  | .error e => .error ("invalid decimal " ++ left ++ ": " ++ e)
  | .ok leftRat =>
    match parseDecimal right with
    | .error e => .error ("invalid decimal " ++ right ++ ": " ++ e)
    | .ok rightRat => .ok (formatDecimal (leftRat.sub rightRat))

theorem BigRat.toRat_sub (a b : BigRat) (ha : 0 < a.den) (hb : 0 < b.den) :
    (a.sub b).toRat = a.toRat - b.toRat := by
  have ha' : ((a.den : Rat)) ≠ 0 := by exact_mod_cast ha.ne'
  have hb' : ((b.den : Rat)) ≠ 0 := by exact_mod_cast hb.ne'
  unfold BigRat.sub BigRat.toRat
  push_cast
  field_simp
  ring

theorem BigRat.toRat_mul (a b : BigRat) (ha : 0 < a.den) (hb : 0 < b.den) :
    (a.mul b).toRat = a.toRat * b.toRat := by
  have ha' : ((a.den : Rat)) ≠ 0 := by exact_mod_cast ha.ne'
  have hb' : ((b.den : Rat)) ≠ 0 := by exact_mod_cast hb.ne'
  unfold BigRat.mul BigRat.toRat
  push_cast
  field_simp

theorem BigRat.toRat_div (a b : BigRat) (ha : 0 < a.den) (hb : 0 < b.den)
    (hbn : b.num ≠ 0) : (a.div b).toRat = a.toRat / b.toRat := by
  have ha' : ((a.den : Rat)) ≠ 0 := by exact_mod_cast ha.ne'
  have hb' : ((b.den : Rat)) ≠ 0 := by exact_mod_cast hb.ne'
  have hbn' : ((b.num : Rat)) ≠ 0 := by exact_mod_cast hbn
  unfold BigRat.div BigRat.toRat
  by_cases hsgn : 0 ≤ b.num
  · have htn : ((b.num.toNat : Rat)) = (b.num : Rat) := by
      exact_mod_cast congrArg (fun z => ((z : Int) : Rat)) (Int.toNat_of_nonneg hsgn)
    rw [if_pos hsgn]
    push_cast
    rw [htn]
    field_simp
  · have hneg : 0 ≤ -b.num := by omega
    have htn : (((-b.num).toNat : Rat)) = ((-b.num : Int) : Rat) := by
      exact_mod_cast congrArg (fun z => ((z : Int) : Rat)) (Int.toNat_of_nonneg hneg)
    rw [if_neg hsgn]
    push_cast
    rw [htn]
    push_cast
    field_simp

theorem BigRat.toRat_ofInt (n : Int) : (BigRat.ofInt n).toRat = (n : Rat) := by
  unfold BigRat.ofInt BigRat.toRat
  simp

/-- `floatString8` is invariant under scaling numerator and denominator by
a common positive factor: the rendering depends only on the represented
rational value.  This is why omitting `big.Rat`'s gcd-reduction step from
the `BigRat` model is observationally faithful. -/
theorem floatString8_scale (n : Int) (d k : Nat) (hk : 0 < k) :
    floatString8 ⟨n * k, d * k⟩ = floatString8 ⟨n, d⟩ := by
  unfold floatString8
  have hsgn : (n * (k : Int) < 0) = (n < 0) := by
    simp only [eq_iff_iff]
    constructor
    · intro h
      by_contra hn
      push_neg at hn
      have : 0 ≤ n * (k : Int) := mul_nonneg hn (by exact_mod_cast hk.le)
      omega
    · intro h
      have hkz : (0 : Int) < (k : Int) := by exact_mod_cast hk
      exact mul_neg_of_neg_of_pos h hkz
  have habs : (n * (k : Int)).natAbs = n.natAbs * k := by
    simp [Int.natAbs_mul]
  have hscaled : (n * (k : Int)).natAbs * 10 ^ metricPrecisionScale =
      n.natAbs * 10 ^ metricPrecisionScale * k := by
    rw [habs]; ring
  have hdiv : n.natAbs * 10 ^ metricPrecisionScale * k / (d * k) =
      n.natAbs * 10 ^ metricPrecisionScale / d :=
    Nat.mul_div_mul_right _ _ hk
  have hmod : n.natAbs * 10 ^ metricPrecisionScale * k % (d * k) =
      n.natAbs * 10 ^ metricPrecisionScale % d * k :=
    Nat.mul_mod_mul_right _ _ _
  have hcond : (d * k ≤ 2 * (n.natAbs * 10 ^ metricPrecisionScale % d * k)) =
      (d ≤ 2 * (n.natAbs * 10 ^ metricPrecisionScale % d)) := by
    simp only [eq_iff_iff]
    constructor
    · intro h
      have h' : d * k ≤ 2 * (n.natAbs * 10 ^ metricPrecisionScale % d) * k := by
        calc d * k ≤ 2 * (n.natAbs * 10 ^ metricPrecisionScale % d * k) := h
          _ = 2 * (n.natAbs * 10 ^ metricPrecisionScale % d) * k := by ring
      exact Nat.le_of_mul_le_mul_right h' hk
    · intro h
      calc d * k ≤ 2 * (n.natAbs * 10 ^ metricPrecisionScale % d) * k :=
            mul_le_mul_right' h k
        _ = 2 * (n.natAbs * 10 ^ metricPrecisionScale % d * k) := by ring
  simp only [hscaled, hdiv, hmod, hcond, hsgn]

theorem digitChar_isDigit : ∀ m, m < 10 → (Nat.digitChar m).isDigit = true := by
  decide

theorem natToDigitsFuel_length :
    ∀ fuel k n acc, n < 10 ^ k →
      (natToDigitsFuel fuel n acc).length ≤ k + acc.length := by
  intro fuel
  induction fuel with
  | zero =>
    intro k n acc _
    simp only [natToDigitsFuel]
    omega
  | succ fuel ih =>
    intro k n acc hn
    by_cases hz : n = 0
    · simp only [natToDigitsFuel, if_pos hz]
      omega
    · have hk : k ≠ 0 := by
        intro h0
        subst h0
        simp only [pow_zero] at hn
        omega
      obtain ⟨k', rfl⟩ : ∃ k', k = k' + 1 := ⟨k - 1, by omega⟩
      have hdiv : n / 10 < 10 ^ k' := by
        have hlt : n < 10 ^ k' * 10 := by
          calc n < 10 ^ (k' + 1) := hn
            _ = 10 ^ k' * 10 := by ring
        omega
      simp only [natToDigitsFuel, if_neg hz]
      have := ih k' (n / 10) (Nat.digitChar (n % 10) :: acc) hdiv
      simp only [List.length_cons] at this
      omega

theorem natToDigitsFuel_digits :
    ∀ fuel n acc, (∀ c ∈ acc, c.isDigit = true) →
      ∀ c ∈ natToDigitsFuel fuel n acc, c.isDigit = true := by
  intro fuel
  induction fuel with
  | zero =>
    intro n acc hacc
    simpa [natToDigitsFuel] using hacc
  | succ fuel ih =>
    intro n acc hacc
    by_cases hz : n = 0
    · simpa [natToDigitsFuel, hz] using hacc
    · simp only [natToDigitsFuel, if_neg hz]
      refine ih (n / 10) _ ?_
      intro c hc
      rcases List.mem_cons.mp hc with h | h
      · rw [h]
        exact digitChar_isDigit _ (Nat.mod_lt _ (by omega))
      · exact hacc c h

theorem natDecimalRepr_length_le (n k : Nat) (hk : 0 < k) (hn : n < 10 ^ k) :
    (natDecimalRepr n).length ≤ k := by
  unfold natDecimalRepr
  by_cases hz : n = 0
  · rw [if_pos hz]
    have h1 : ("0" : String).length = 1 := rfl
    omega
  · rw [if_neg hz]
    have := natToDigitsFuel_length n k n [] hn
    simpa [String.length] using this

theorem natDecimalRepr_digits (n : Nat) :
    ∀ c ∈ (natDecimalRepr n).data, c.isDigit = true := by
  unfold natDecimalRepr
  by_cases hz : n = 0
  · rw [if_pos hz]
    decide
  · rw [if_neg hz]
    exact natToDigitsFuel_digits n n [] (by simp)

theorem padZeros_length (w : Nat) (s : String) (h : s.length ≤ w) :
    (padZeros w s).length = w := by
  unfold padZeros
  have h2 : (String.mk (List.replicate (w - s.length) '0' ++ s.data)).length
      = (List.replicate (w - s.length) '0' ++ s.data).length := rfl
  rw [h2, List.length_append, List.length_replicate]
  have h3 : s.length = s.data.length := rfl
  omega

theorem padZeros_digits (w : Nat) (s : String)
    (h : ∀ c ∈ s.data, c.isDigit = true) :
    ∀ c ∈ (padZeros w s).data, c.isDigit = true := by
  unfold padZeros
  intro c hc
  rcases List.mem_append.mp hc with h1 | h1
  · have := List.eq_of_mem_replicate h1
    rw [this]
    decide
  · exact h c h1

/-- The rendering of `big.Rat.FloatString(8)` always consists of an
integer part, a dot, and exactly 8 fractional digit characters. -/
theorem floatString8_shape (q : BigRat) :
    ∃ pre post, floatString8 q = pre ++ "." ++ post ∧ post.length = 8 ∧
      (∀ c ∈ post.data, c.isDigit = true) ∧
      (∀ c ∈ pre.data, c = '-' ∨ c.isDigit = true) := by
  refine ⟨(if q.num < 0 then "-" else "") ++ natDecimalRepr
      ((if q.den ≤ 2 * (q.num.natAbs * 10 ^ metricPrecisionScale % q.den) then
          q.num.natAbs * 10 ^ metricPrecisionScale / q.den + 1
        else q.num.natAbs * 10 ^ metricPrecisionScale / q.den) /
        10 ^ metricPrecisionScale),
    padZeros metricPrecisionScale (natDecimalRepr
      ((if q.den ≤ 2 * (q.num.natAbs * 10 ^ metricPrecisionScale % q.den) then
          q.num.natAbs * 10 ^ metricPrecisionScale / q.den + 1
        else q.num.natAbs * 10 ^ metricPrecisionScale / q.den) %
        10 ^ metricPrecisionScale)), rfl, ?_, ?_, ?_⟩
  · apply padZeros_length
    apply natDecimalRepr_length_le _ _ (by norm_num [metricPrecisionScale])
    exact Nat.mod_lt _ (by norm_num [metricPrecisionScale])
  · exact padZeros_digits _ _ (natDecimalRepr_digits _)
  · intro c hc
    rw [String.data_append] at hc
    rcases List.mem_append.mp hc with h1 | h1
    · left
      by_cases hneg : q.num < 0
      · rw [if_pos hneg] at h1
        have hd : ("-" : String).data = ['-'] := rfl
        rw [hd] at h1
        simpa using h1
      · rw [if_neg hneg] at h1
        have hd : ("" : String).data = [] := rfl
        rw [hd] at h1
        simp at h1
    · right
      exact natDecimalRepr_digits _ c h1

theorem parseFraction_den_pos (cs : List Char) (q : BigRat)
    (h : parseFraction cs = some q) : 0 < q.den := by
  simp only [parseFraction] at h
  split at h
  · split at h
    · rename_i hcond
      simp only [Option.some.injEq] at h
      subst h
      have hne := hcond.2.2.2.2
      show 0 < digitsVal _
      omega
    · simp at h
  · simp at h

theorem applyExponent_den_pos (neg : Bool) (m scale : Nat) (e : Int) :
    0 < (applyExponent neg m scale e).den := by
  simp only [applyExponent]
  split
  · show (0 : Nat) < 1
    omega
  · show 0 < 10 ^ _
    positivity

theorem ratSetString_den_pos (s : String) (q : BigRat)
    (h : ratSetString s = some q) : 0 < q.den := by
  simp only [ratSetString] at h
  split at h
  · exact parseFraction_den_pos _ _ h
  · split at h
    · simp at h
    · split at h
      · simp at h
      · simp only [Option.some.injEq] at h
        subst h
        exact applyExponent_den_pos _ _ _ _

theorem parseDecimal_ok_iff (v : String) (q : BigRat) :
    parseDecimal v = .ok q ↔
      goTrim v ≠ "" ∧ ratSetString (goTrim v) = some q := by
  unfold parseDecimal
  by_cases he : goTrim v = ""
  · simp [he]
  · rw [if_neg he]
    constructor
    · intro h
      split at h
      · exact absurd h (by simp)
      · rename_i rat hrat
        simp only [Except.ok.injEq] at h
        subst h
        exact ⟨he, hrat⟩
    · intro ⟨_, hsome⟩
      rw [hsome]

theorem parsePositiveDecimal_ok_iff (v label : String) (q : BigRat) :
    parsePositiveDecimal v label = .ok q ↔
      goTrim v ≠ "" ∧ ratSetString (goTrim v) = some q ∧ 0 < q.sign := by
  unfold parsePositiveDecimal
  constructor
  · intro h
    split at h
    · exact absurd h (by simp)
    · rename_i rat hrat
      rw [parseDecimal_ok_iff] at hrat
      split at h
      · exact absurd h (by simp)
      · rename_i hsgn
        simp only [Except.ok.injEq] at h
        subst h
        exact ⟨hrat.1, hrat.2, by omega⟩
  · intro ⟨hne, hsome, hsgn⟩
    have : parseDecimal v = .ok q := (parseDecimal_ok_iff v q).mpr ⟨hne, hsome⟩
    rw [this]
    simp only
    rw [if_neg (by omega)]

theorem parsePositiveDecimal_pos (v label : String) (q : BigRat)
    (h : parsePositiveDecimal v label = .ok q) : 0 < q.num ∧ 0 < q.den := by
  rw [parsePositiveDecimal_ok_iff] at h
  refine ⟨?_, ratSetString_den_pos _ _ h.2.1⟩
  have hs := h.2.2
  unfold BigRat.sign at hs
  rcases lt_trichotomy q.num 0 with hlt | heq | hgt
  · have hm : q.num.sign = -1 := Int.sign_eq_neg_one_iff_neg.mpr hlt
    omega
  · rw [heq] at hs
    simp at hs
  · exact hgt

theorem parsePositiveDecimal_error_of_bad (v label : String)
    (h : goTrim v = "" ∨ ratSetString (goTrim v) = none ∨
      ∃ q, ratSetString (goTrim v) = some q ∧ q.sign ≤ 0) :
    ∃ e, parsePositiveDecimal v label = .error e := by
  unfold parsePositiveDecimal parseDecimal
  rcases h with h | h | ⟨q, hq, hsgn⟩
  · rw [if_pos h]
    exact ⟨_, rfl⟩
  · by_cases he : goTrim v = ""
    · rw [if_pos he]
      exact ⟨_, rfl⟩
    · rw [if_neg he, h]
      exact ⟨_, rfl⟩
  · by_cases he : goTrim v = ""
    · rw [if_pos he]
      exact ⟨_, rfl⟩
    · rw [if_neg he, hq]
      simp only
      rw [if_pos hsgn]
      exact ⟨_, rfl⟩

/-- C1: for every pair of positive decimal strings `i` and `c`,
`calculateReturnPct i c` returns the decimal string equal to
`(c - i) / i * 100` rendered with exactly 8 fractional digits, and it
returns an error whenever either operand is non-positive, non-numeric
or malformed (empty after trimming, rejected by the decimal parser, or
parsed with sign at most zero). -/
theorem calculateReturnPct_spec :
    (∀ i c qi qc, parsePositiveDecimal i "initial" = .ok qi →
      parsePositiveDecimal c "current" = .ok qc →
      calculateReturnPct i c =
        .ok (floatString8 (((qc.sub qi).mul (BigRat.ofInt 100)).div qi)) ∧
      (((qc.sub qi).mul (BigRat.ofInt 100)).div qi).toRat =
        (qc.toRat - qi.toRat) / qi.toRat * 100 ∧
      ∃ pre post,
        floatString8 (((qc.sub qi).mul (BigRat.ofInt 100)).div qi) =
          pre ++ "." ++ post ∧ post.length = 8 ∧
          ∀ ch ∈ post.data, ch.isDigit = true) ∧
    (∀ i c, (goTrim i = "" ∨ ratSetString (goTrim i) = none ∨
        ∃ q, ratSetString (goTrim i) = some q ∧ q.sign ≤ 0) →
      ∃ e, calculateReturnPct i c = .error e) ∧
    (∀ i c, (goTrim c = "" ∨ ratSetString (goTrim c) = none ∨
        ∃ q, ratSetString (goTrim c) = some q ∧ q.sign ≤ 0) →
      ∃ e, calculateReturnPct i c = .error e) := by
  refine ⟨?_, ?_, ?_⟩
  · intro i c qi qc hi hc
    obtain ⟨hqin, hqid⟩ := parsePositiveDecimal_pos i "initial" qi hi
    obtain ⟨hqcn, hqcd⟩ := parsePositiveDecimal_pos c "current" qc hc
    have hsubden : 0 < (qc.sub qi).den := by
      show 0 < qc.den * qi.den
      positivity
    have hofden : 0 < (BigRat.ofInt 100).den := by
      show (0 : Nat) < 1
      omega
    have hmulden : 0 < ((qc.sub qi).mul (BigRat.ofInt 100)).den := by
      show 0 < (qc.sub qi).den * (BigRat.ofInt 100).den
      have h1 : (BigRat.ofInt 100).den = 1 := rfl
      rw [h1]
      omega
    refine ⟨?_, ?_, ?_⟩
    · simp only [calculateReturnPct, hi, hc, formatDecimal]
    · rw [BigRat.toRat_div _ _ hmulden hqid (by omega),
        BigRat.toRat_mul _ _ hsubden hofden,
        BigRat.toRat_sub _ _ hqcd hqid, BigRat.toRat_ofInt]
      push_cast
      ring
    · obtain ⟨pre, post, heq, hlen, hdig, -⟩ :=
        floatString8_shape (((qc.sub qi).mul (BigRat.ofInt 100)).div qi)
      exact ⟨pre, post, heq, hlen, hdig⟩
  · intro i c h
    obtain ⟨e, he⟩ := parsePositiveDecimal_error_of_bad i "initial" h
    exact ⟨e, by simp only [calculateReturnPct, he]⟩
  · intro i c h
    obtain ⟨e, he⟩ := parsePositiveDecimal_error_of_bad c "current" h
    cases hi : parsePositiveDecimal i "initial" with
    | error e2 => exact ⟨e2, by simp only [calculateReturnPct, hi]⟩
    | ok qi => exact ⟨e, by simp only [calculateReturnPct, hi, he]⟩

/-- Witness for C1 at the spec's concrete scenario: `initial=100`,
`current=95` renders `-5.00000000`; a zero and a malformed operand are
rejected. -/
theorem calculateReturnPct_spec_witness :
    calculateReturnPct "100" "95" = .ok "-5.00000000" ∧
    (∃ e, calculateReturnPct "0" "95" = .error e) ∧
    (∃ e, calculateReturnPct "100" "abc" = .error e) := by
  have h := calculateReturnPct_spec
  refine ⟨?_, ?_, ?_⟩
  · have h1 := (h.1 "100" "95" ⟨100, 1⟩ ⟨95, 1⟩ (by decide) (by decide)).1
    rw [h1]
    decide
  · exact h.2.1 "0" "95" (Or.inr (Or.inr ⟨⟨0, 1⟩, by decide, by decide⟩))
  · exact h.2.2 "100" "abc" (Or.inr (Or.inl (by decide)))

/-- Go's `time.Time`, reduced to what the checkpoint engine observes: an
absolute calendar day (days since 1970-01-01, the Unix epoch) and a
time-of-day (hour/minute; seconds and nanoseconds are always zero in
this program).  `AddDate(0, 0, k)` is `day + k`; a date-only value has
`hour = 0` and `minute = 0`. -/
structure GoTime where
  day : Int
  hour : Int
  minute : Int
deriving DecidableEq, Repr

/-- `time.Weekday` of an absolute day (Sunday = 0 … Saturday = 6); day 0,
1970-01-01, was a Thursday (= 4). -/
def goWeekday (day : Int) : Int :=
  (day + 4) % 7

/-- The day is a Saturday or a Sunday. -/
def isWeekend (day : Int) : Bool :=
  goWeekday day == 6 || goWeekday day == 0

/-- Gregorian leap year. -/
def isLeapYear (y : Int) : Bool :=
  (y % 4 == 0 && y % 100 != 0) || y % 400 == 0

/-- Days in a month of the proleptic Gregorian calendar (Go's
`time.Parse` validates the day-of-month against this). -/
def daysInMonth (y m : Int) : Int :=
  if m = 2 then (if isLeapYear y then 29 else 28)
  else if m = 4 ∨ m = 6 ∨ m = 9 ∨ m = 11 then 30
  else 31

/-- Absolute day number (days since 1970-01-01) of a civil date, by the
standard civil-from-days algorithm; the year is shifted by 400 (exactly
146097 days) so that every division below has non-negative operands. -/
def daysFromCivil (y m d : Int) : Int :=
  let y2 := if m ≤ 2 then y + 400 - 1 else y + 400
  let era := y2 / 400
  let yoe := y2 - era * 400
  let mp := if m ≤ 2 then m + 9 else m - 3
  let doy := (153 * mp + 2) / 5 + d - 1
  let doe := yoe * 365 + yoe / 4 - yoe / 100 + doy
  era * 146097 + doe - 719468 - 146097

/-- `parseDate` of `internal/worker/steps.go`: Go's
`time.Parse("2006-01-02", value)` (4-digit year, 2-digit month `01`-`12`,
2-digit day validated against the month length) followed by the
reconstruction of the date at midnight with no time-of-day component. -/
def parseDate (value : String) : Option GoTime :=
  match value.data with
  | [y1, y2, y3, y4, '-', m1, m2, '-', d1, d2] =>
    if allDigits [y1, y2, y3, y4] ∧ allDigits [m1, m2] ∧ allDigits [d1, d2] then
      let y : Int := digitsVal [y1, y2, y3, y4]
      let m : Int := digitsVal [m1, m2]
      let d : Int := digitsVal [d1, d2]
      if 1 ≤ m ∧ m ≤ 12 ∧ 1 ≤ d ∧ d ≤ daysInMonth y m then
        some ⟨daysFromCivil y m d, 0, 0⟩
      else none
    else none
  | _ => none

/-- The backward weekend walk of `previousTradingDayFallback`: step back
one day while the day is a Saturday or Sunday.  The Go loop terminates
after at most two steps (a weekend is two consecutive days), so the fuel
of 7 used below never runs out. -/
def skipWeekendBack : Nat → Int → Int
  | 0, n => n
  | fuel + 1, n => if isWeekend n then skipWeekendBack fuel (n - 1) else n

/-- `previousTradingDayFallback` of `internal/worker/steps.go`: the
previous calendar day, walked backward past Saturday and Sunday,
expressed at midnight with no time-of-day component. -/
def previousTradingDayFallback (scheduledAt : GoTime) : GoTime :=
  ⟨skipWeekendBack 7 (scheduledAt.day - 1), 0, 0⟩

theorem isWeekend_iff (n : Int) :
    isWeekend n = true ↔ ((n + 4) % 7 = 6 ∨ (n + 4) % 7 = 0) := by
  simp [isWeekend, goWeekday]

theorem isWeekend_false_iff (n : Int) :
    isWeekend n = false ↔ ((n + 4) % 7 ≠ 6 ∧ (n + 4) % 7 ≠ 0) := by
  simp [isWeekend, goWeekday]

theorem skipWeekendBack_succ (fuel : Nat) (n : Int) :
    skipWeekendBack (fuel + 1) n =
      if isWeekend n then skipWeekendBack fuel (n - 1) else n := rfl

theorem skipWeekendBack7_cases (x : Int) :
    skipWeekendBack 7 x =
      if isWeekend x then (if isWeekend (x - 1) then x - 2 else x - 1)
      else x := by
  by_cases h0 : isWeekend x = true
  · by_cases h1 : isWeekend (x - 1) = true
    · have h2 : isWeekend (x - 1 - 1) = false := by
        rw [isWeekend_iff] at h0 h1
        rw [isWeekend_false_iff]
        omega
      rw [skipWeekendBack_succ, if_pos h0, skipWeekendBack_succ, if_pos h1,
        skipWeekendBack_succ, if_neg (by rw [h2]; simp), if_pos h0,
        if_pos h1]
      omega
    · rw [skipWeekendBack_succ, if_pos h0, skipWeekendBack_succ, if_neg h1,
        if_pos h0, if_neg h1]
  · rw [skipWeekendBack_succ, if_neg h0, if_neg h0]

/-- The fallback date is the nearest strictly earlier non-weekend day, at
midnight. -/
theorem previousTradingDayFallback_spec (t : GoTime) :
    (previousTradingDayFallback t).hour = 0 ∧
    (previousTradingDayFallback t).minute = 0 ∧
    isWeekend (previousTradingDayFallback t).day = false ∧
    (previousTradingDayFallback t).day < t.day ∧
    ∀ m, (previousTradingDayFallback t).day < m → m < t.day →
      isWeekend m = true := by
  unfold previousTradingDayFallback
  refine ⟨rfl, rfl, ?_, ?_, ?_⟩
  all_goals simp only [skipWeekendBack7_cases (t.day - 1)]
  · by_cases h0 : isWeekend (t.day - 1) = true
    · by_cases h1 : isWeekend (t.day - 1 - 1) = true
      · rw [if_pos h0, if_pos h1]
        rw [isWeekend_iff] at h0 h1
        rw [isWeekend_false_iff]
        omega
      · rw [if_pos h0, if_neg h1]
        simp only [Bool.not_eq_true] at h1
        exact h1
    · rw [if_neg h0]
      simp only [Bool.not_eq_true] at h0
      exact h0
  · by_cases h0 : isWeekend (t.day - 1) = true
    · by_cases h1 : isWeekend (t.day - 1 - 1) = true
      · rw [if_pos h0, if_pos h1]
        omega
      · rw [if_pos h0, if_neg h1]
        omega
    · rw [if_neg h0]
      omega
  · intro m hm1 hm2
    by_cases h0 : isWeekend (t.day - 1) = true
    · by_cases h1 : isWeekend (t.day - 1 - 1) = true
      · rw [if_pos h0, if_pos h1] at hm1
        have hcase : m = t.day - 1 ∨ m = t.day - 2 := by omega
        rcases hcase with rfl | rfl
        · exact h0
        · have h1' : t.day - 1 - 1 = t.day - 2 := by omega
          rw [h1'] at h1
          exact h1
      · rw [if_pos h0, if_neg h1] at hm1
        have hcase : m = t.day - 1 := by omega
        rw [hcase]
        exact h0
    · rw [if_neg h0] at hm1
      omega

/-- A row of the `batches` table (the columns this core reads/writes). -/
structure BatchRow where
  id : String
  status : String
deriving DecidableEq, Repr

/-- A row of the `checkpoints` table. -/
structure CheckpointRow where
  id : Nat
  batchID : String
  checkpointDate : GoTime
  status : String
  benchmarkPrice : Option String
  benchmarkReturnPct : Option String
deriving DecidableEq, Repr

/-- A row of the `pick_checkpoint_metrics` table. -/
structure MetricRow where
  id : Nat
  checkpointID : Nat
  pickID : String
  currentPrice : String
  absoluteReturnPct : String
  vsBenchmarkPct : String
deriving DecidableEq, Repr

/-- `db.NewCheckpointMetric`. -/
structure NewCheckpointMetric where
  pickID : String
  currentPrice : String
  absoluteReturnPct : String
  vsBenchmarkPct : String
deriving DecidableEq, Repr

/-- `db.CreateCheckpointInput`. -/
structure CreateCheckpointInput where
  batchID : String
  checkpointDate : GoTime
  status : String
  benchmarkPrice : Option String
  benchmarkReturnPct : Option String
  metrics : List NewCheckpointMetric
deriving DecidableEq, Repr

/-- `db.CreateCheckpointResult`. -/
structure CreateCheckpointResult where
  checkpointID : Nat
deriving DecidableEq, Repr

/-- The relational store observed by this core: the three tables written
by the daily loop and a counter standing in for `uuid.New()` (each new
row gets the next fresh id). -/
structure StoreState where
  batches : List BatchRow
  checkpoints : List CheckpointRow
  metrics : List MetricRow
  nextID : Nat
deriving DecidableEq, Repr

/-- The store errors distinguished by `internal/db`: the typed conflict
sentinels `ErrRunDateConflict` / `ErrCheckpointConflict`, the local
validation errors of `CreateCheckpointWithMetrics`, and any other
database error. -/
inductive DBErr where
  | runDateConflict
  | checkpointConflict
  | validation (msg : String)
  | other (msg : String)
deriving DecidableEq, Repr

/-- A checkpoint row for this (batch, checkpoint date) already exists —
the uniqueness predicate behind the `checkpoints_batch_date_unique`
constraint. -/
def hasCheckpoint (st : StoreState) (batchID : String) (date : GoTime) : Prop :=
  ∃ c ∈ st.checkpoints, c.batchID = batchID ∧ c.checkpointDate = date

instance (st : StoreState) (batchID : String) (date : GoTime) :
    Decidable (hasCheckpoint st batchID date) := by
  unfold hasCheckpoint
  infer_instance

/-- Number of checkpoint rows stored for a (batch, checkpoint date). -/
def countFor (st : StoreState) (batchID : String) (date : GoTime) : Nat :=
  (st.checkpoints.filter
    (fun c => c.batchID == batchID && c.checkpointDate == date)).length

/-- Metric rows inserted with a checkpoint, with ids drawn from the
fresh-id counter. -/
def insertMetrics (checkpointID : Nat) :
    Nat → List NewCheckpointMetric → List MetricRow
  | _, [] => []
  | nextID, m :: ms =>
    ⟨nextID, checkpointID, m.pickID, m.currentPrice, m.absoluteReturnPct,
      m.vsBenchmarkPct⟩ :: insertMetrics checkpointID (nextID + 1) ms

/-- The transactional insert phase of `CreateCheckpointWithMetrics`: the
`status` CHECK constraint and the `(batch_id, checkpoint_date)` UNIQUE
constraint of the `checkpoints` table, then the checkpoint row and its
metric rows committed atomically.  (Foreign-key failures and
connection-level failures of the underlying pool are outside the
modelled state.) -/
def checkpointInsert (st : StoreState) (input : CreateCheckpointInput) :
    StoreState × Except DBErr CreateCheckpointResult :=
  if input.status ≠ "computed" ∧ input.status ≠ "skipped" then
    (st, .error (.other "checkpoints_status_check"))
  else if hasCheckpoint st input.batchID input.checkpointDate then
    (st, .error .checkpointConflict)
  else
    ({ st with
        checkpoints := st.checkpoints ++
          [⟨st.nextID, input.batchID, input.checkpointDate, input.status,
            input.benchmarkPrice, input.benchmarkReturnPct⟩],
        metrics := st.metrics ++ insertMetrics st.nextID (st.nextID + 1) input.metrics,
        nextID := st.nextID + 1 + input.metrics.length },
      .ok ⟨st.nextID⟩)

/-- `CreateCheckpointWithMetrics` of `internal/db/store_write.go`: the
local invariant validation (computed checkpoints must carry both
benchmark fields; skipped checkpoints must carry neither and no
metrics), before any write, followed by the atomic insert. -/
def CreateCheckpointWithMetrics (st : StoreState)
    (input : CreateCheckpointInput) :
    StoreState × Except DBErr CreateCheckpointResult :=
  if input.status = "computed" then
    if input.benchmarkPrice = none ∨ input.benchmarkReturnPct = none then
      (st, .error (.validation
        "benchmark price and return are required for computed checkpoint"))
    else checkpointInsert st input
  else if input.status = "skipped" then
    if input.benchmarkPrice ≠ none ∨ input.benchmarkReturnPct ≠ none ∨
        input.metrics ≠ [] then
      (st, .error (.validation
        "skipped checkpoint cannot include benchmark metrics or pick metrics"))
    else checkpointInsert st input
  else checkpointInsert st input

/-- `UpdateBatchStatus` of `internal/db/store_write.go`: a single-row
`UPDATE batches SET status = $2 WHERE id = $1`; matching zero rows is not
an error. -/
def UpdateBatchStatus (st : StoreState) (batchID status : String) :
    StoreState × Except DBErr Unit :=
  ({ st with
      batches := st.batches.map
        (fun b => if b.id = batchID then { b with status := status } else b) },
    .ok ())

/-- `PickState` of `internal/worker/workflows.go`. -/
structure PickState where
  pickID : String
  ticker : String
  action : String
  reasoning : String
  initialPrice : String
deriving DecidableEq, Repr

/-- `WeeklyPickState` of `internal/worker/workflows.go`: the immutable
snapshot threaded through all 14 daily cycles. -/
structure WeeklyPickState where
  batchID : String
  runDate : String
  benchmarkSymbol : String
  benchmarkInitialPrice : String
  picks : List PickState
deriving DecidableEq, Repr

/-- The errors a daily cycle can surface, mirroring the `error` values of
`internal/worker/steps.go`. -/
inductive WErr where
  | fetch (msg : String)
  | missingTradingDay (symbol : String)
  | invalidTradingDay (value : String)
  | invalidRunDate (value : String)
  | calcErr (msg : String)
  | emptyTicker
  | db (e : DBErr)
  | sleepErr (msg : String)
  | updateStatus (e : DBErr)
deriving DecidableEq, Repr

/-- `persistCheckpoint` of `internal/worker/steps.go`: create the
checkpoint and its metrics; an `ErrCheckpointConflict` is logged and
treated as success, any other error is propagated. -/
def persistCheckpoint (st : StoreState) (state : WeeklyPickState)
    (checkpointDate : GoTime) (benchmarkPrice benchmarkReturn : Option String)
    (metrics : List NewCheckpointMetric) (status : String) :
    StoreState × Except WErr Unit :=
  match CreateCheckpointWithMetrics st
      ⟨state.batchID, checkpointDate, status, benchmarkPrice,
        benchmarkReturn, metrics⟩ with
  | (st2, .ok _) => (st2, .ok ())
  | (st2, .error e) =>
    if e = DBErr.checkpointConflict then (st2, .ok ())
    else (st2, .error (.db e))

theorem CreateCheckpointWithMetrics_error_state (st : StoreState)
    (input : CreateCheckpointInput) (e : DBErr)
    (h : (CreateCheckpointWithMetrics st input).2 = .error e) :
    (CreateCheckpointWithMetrics st input).1 = st := by
  unfold CreateCheckpointWithMetrics checkpointInsert at h ⊢
  split_ifs at h ⊢ <;> simp_all

/-- C7: `CreateCheckpointWithMetrics` validates before performing any
write: a computed checkpoint without a benchmark price or return, or a
skipped checkpoint with a benchmark price, a benchmark return, or any
metric, is rejected with a validation error and the store state is
returned unchanged. -/
theorem CreateCheckpointWithMetrics_validates (st : StoreState)
    (input : CreateCheckpointInput) :
    (input.status = "computed" →
      (input.benchmarkPrice = none ∨ input.benchmarkReturnPct = none) →
      ∃ msg, CreateCheckpointWithMetrics st input =
        (st, .error (.validation msg))) ∧
    (input.status = "skipped" →
      (input.benchmarkPrice ≠ none ∨ input.benchmarkReturnPct ≠ none ∨
        input.metrics ≠ []) →
      ∃ msg, CreateCheckpointWithMetrics st input =
        (st, .error (.validation msg))) := by
  constructor
  · intro hs hbad
    unfold CreateCheckpointWithMetrics
    rw [if_pos hs, if_pos hbad]
    exact ⟨_, rfl⟩
  · intro hs hbad
    unfold CreateCheckpointWithMetrics
    by_cases hc : input.status = "computed"
    · exfalso
      rw [hs] at hc
      exact absurd hc (by decide)
    · rw [if_neg hc, if_pos hs, if_pos hbad]
      exact ⟨_, rfl⟩

/-- Witness for C7: a computed checkpoint with no benchmark fields and a
skipped checkpoint carrying a benchmark price are both rejected without
touching the store. -/
theorem CreateCheckpointWithMetrics_validates_witness :
    (∃ msg, CreateCheckpointWithMetrics ⟨[], [], [], 0⟩
      ⟨"b1", ⟨0, 0, 0⟩, "computed", none, none, []⟩ =
      (⟨[], [], [], 0⟩, .error (.validation msg))) ∧
    (∃ msg, CreateCheckpointWithMetrics ⟨[], [], [], 0⟩
      ⟨"b1", ⟨0, 0, 0⟩, "skipped", some "1", none, []⟩ =
      (⟨[], [], [], 0⟩, .error (.validation msg))) := by
  constructor
  · exact (CreateCheckpointWithMetrics_validates _ _).1 rfl (Or.inl rfl)
  · exact (CreateCheckpointWithMetrics_validates _ _).2 rfl
      (Or.inl (by decide))

/-- C2: checkpoint creation is idempotent under retry: when the store
already holds the checkpoint for this (batch, date) — i.e.
`CreateCheckpointWithMetrics` reports `ErrCheckpointConflict` —
`persistCheckpoint` succeeds and the store still holds exactly one
checkpoint for that (batch, date); any other store error is propagated
as a failure. -/
theorem persistCheckpoint_idempotent (st : StoreState)
    (state : WeeklyPickState) (date : GoTime)
    (benchmarkPrice benchmarkReturn : Option String)
    (metrics : List NewCheckpointMetric) (status : String) :
    ((CreateCheckpointWithMetrics st
        ⟨state.batchID, date, status, benchmarkPrice, benchmarkReturn,
          metrics⟩).2 = .error .checkpointConflict →
      countFor st state.batchID date = 1 →
      persistCheckpoint st state date benchmarkPrice benchmarkReturn
        metrics status = (st, .ok ()) ∧
      countFor (persistCheckpoint st state date benchmarkPrice
        benchmarkReturn metrics status).1 state.batchID date = 1) ∧
    (∀ st2 e, CreateCheckpointWithMetrics st
        ⟨state.batchID, date, status, benchmarkPrice, benchmarkReturn,
          metrics⟩ = (st2, .error e) →
      e ≠ DBErr.checkpointConflict →
      persistCheckpoint st state date benchmarkPrice benchmarkReturn
        metrics status = (st2, .error (.db e))) := by
  constructor
  · intro hconf hcount
    have hst := CreateCheckpointWithMetrics_error_state st
      ⟨state.batchID, date, status, benchmarkPrice, benchmarkReturn,
        metrics⟩ _ hconf
    have hcr : CreateCheckpointWithMetrics st
        ⟨state.batchID, date, status, benchmarkPrice, benchmarkReturn,
          metrics⟩ = (st, .error .checkpointConflict) :=
      Prod.ext hst hconf
    have hres : persistCheckpoint st state date benchmarkPrice
        benchmarkReturn metrics status = (st, .ok ()) := by
      unfold persistCheckpoint
      rw [hcr]
      simp
    refine ⟨hres, ?_⟩
    rw [hres]
    exact hcount
  · intro st2 e hcr hne
    unfold persistCheckpoint
    rw [hcr]
    simp only [if_neg hne]

/-- Witness for C2: with one stored checkpoint for the (batch, date),
re-persisting succeeds and leaves the count at one; a validation error
is propagated as a failure. -/
theorem persistCheckpoint_idempotent_witness :
    persistCheckpoint ⟨[], [⟨0, "b1", ⟨100, 0, 0⟩, "skipped", none, none⟩], [], 1⟩
      ⟨"b1", "2025-10-06", "SPY", "600", []⟩ ⟨100, 0, 0⟩ none none []
      "skipped" =
      (⟨[], [⟨0, "b1", ⟨100, 0, 0⟩, "skipped", none, none⟩], [], 1⟩, .ok ()) ∧
    countFor ⟨[], [⟨0, "b1", ⟨100, 0, 0⟩, "skipped", none, none⟩], [], 1⟩
      "b1" ⟨100, 0, 0⟩ = 1 ∧
    persistCheckpoint ⟨[], [⟨0, "b1", ⟨100, 0, 0⟩, "skipped", none, none⟩], [], 1⟩
      ⟨"b1", "2025-10-06", "SPY", "600", []⟩ ⟨100, 0, 0⟩ (some "1") none []
      "skipped" =
      (⟨[], [⟨0, "b1", ⟨100, 0, 0⟩, "skipped", none, none⟩], [], 1⟩,
        .error (.db (.validation
          "skipped checkpoint cannot include benchmark metrics or pick metrics"))) := by
  have h := persistCheckpoint_idempotent
    ⟨[], [⟨0, "b1", ⟨100, 0, 0⟩, "skipped", none, none⟩], [], 1⟩
    ⟨"b1", "2025-10-06", "SPY", "600", []⟩ ⟨100, 0, 0⟩ none none [] "skipped"
  have h2 := persistCheckpoint_idempotent
    ⟨[], [⟨0, "b1", ⟨100, 0, 0⟩, "skipped", none, none⟩], [], 1⟩
    ⟨"b1", "2025-10-06", "SPY", "600", []⟩ ⟨100, 0, 0⟩ (some "1") none []
    "skipped"
  refine ⟨(h.1 (by decide) (by decide)).1, by decide, ?_⟩
  exact h2.2 _ _ (by decide) (by decide)

/-- C10: `UpdateBatchStatus` returns success even when no batch with the
given id exists; the update matches zero rows and the store is
unchanged. -/
theorem UpdateBatchStatus_missing_batch (st : StoreState)
    (batchID status : String)
    (h : ∀ b ∈ st.batches, b.id ≠ batchID) :
    UpdateBatchStatus st batchID status = (st, .ok ()) := by
  unfold UpdateBatchStatus
  have hmap : ∀ l : List BatchRow, (∀ b ∈ l, b.id ≠ batchID) →
      l.map (fun b => if b.id = batchID then { b with status := status }
        else b) = l := by
    intro l hl
    induction l with
    | nil => rfl
    | cons b bs ih =>
      simp only [List.map_cons]
      rw [if_neg (hl b (by simp)), ih (fun x hx => hl x (by simp [hx]))]
  rw [hmap st.batches h]

/-- Witness for C10: updating a batch id absent from the store succeeds
and changes nothing. -/
theorem UpdateBatchStatus_missing_batch_witness :
    UpdateBatchStatus ⟨[⟨"b2", "active"⟩], [], [], 0⟩ "b1" "completed" =
      (⟨[⟨"b2", "active"⟩], [], [], 0⟩, .ok ()) :=
  UpdateBatchStatus_missing_batch _ _ _ (by decide)

/-- `alphavantage.Quote`: symbol, previous close and trading day as
returned by the market-data provider; empty strings signal a non-trading
day, not an error. -/
structure Quote where
  symbol : String
  previousClose : String
  tradingDay : String
deriving DecidableEq, Repr

/-- The external inputs of one daily cycle: the result of the benchmark
`FetchPreviousClose` and, per ticker, the result of a pick
`FetchPreviousClose`. -/
structure DailyEnv where
  benchmark : Except String Quote
  pickFetch : String → Except String Quote

/-- The ticker collection loop of `fetchPickQuotes`: trim, reject empty
tickers, and deduplicate preserving first occurrence. -/
def dedupeTickers : List PickState → List String → Except WErr (List String)
  | [], _ => .ok []
  | p :: ps, seen =>
    let ticker := goTrim p.ticker
    if ticker = "" then .error .emptyTicker
    else if seen.contains ticker then dedupeTickers ps seen
    else
      match dedupeTickers ps (ticker :: seen) with
      | .error e => .error e
      | .ok rest => .ok (ticker :: rest)

/-- The bounded fan-out of `fetchPickQuotes`, determinized: the Go code
fetches the tickers with at most 3 concurrent requests and collects the
results into a map, returning the first error received.  The resulting
map does not depend on completion order, and no caller depends on which
of several failing fetches provides the error, so the fan-out is modelled
as a sequential traversal in ticker order. -/
def fetchQuotesSeq (env : DailyEnv) :
    List String → Except WErr (List (String × Quote))
  | [] => .ok []
  | t :: ts =>
    match env.pickFetch t with
    | .error e => .error (.fetch e)
    | .ok q =>
      match fetchQuotesSeq env ts with
      | .error e => .error e
      | .ok rest => .ok ((t, q) :: rest)

/-- `fetchPickQuotes` of `internal/worker/steps.go`. -/
def fetchPickQuotes (env : DailyEnv) (picks : List PickState) :
    Except WErr (List (String × Quote)) :=
  match dedupeTickers picks [] with
  | .error e => .error e
  | .ok tickers => fetchQuotesSeq env tickers

/-- Go's `pickQuotes[pick.Ticker]` map access: the zero-value `Quote`
(all fields empty) when the key is absent. -/
def lookupQuote (quotes : List (String × Quote)) (ticker : String) : Quote :=
  match quotes.find? (fun q => q.1 == ticker) with
  | some q => q.2
  | none => ⟨"", "", ""⟩

/-- The metric-building loop of `runDailyCheckpoint`: per pick, the
absolute return from its initial price and the difference against the
benchmark return. -/
def buildMetrics (quotes : List (String × Quote)) (benchmarkReturn : String) :
    List PickState → Except String (List NewCheckpointMetric)
  | [] => .ok []
  | p :: ps =>
    let currentPrice := goTrim (lookupQuote quotes p.ticker).previousClose
    match calculateReturnPct p.initialPrice currentPrice with
    | .error e => .error e
    | .ok absoluteReturn =>
      match subtractDecimalStrings absoluteReturn benchmarkReturn with
      | .error e => .error e
      | .ok vsBenchmark =>
        match buildMetrics quotes benchmarkReturn ps with
        | .error e => .error e
        | .ok rest =>
          .ok (⟨p.pickID, currentPrice, absoluteReturn, vsBenchmark⟩ :: rest)

/-- `runDailyCheckpoint` of `internal/worker/steps.go`: one daily cycle
over the store state. -/
def runDailyCheckpoint (env : DailyEnv) (st : StoreState)
    (state : WeeklyPickState) (scheduledAt : GoTime) :
    StoreState × Except WErr Unit :=
  match env.benchmark with
  | .error e => (st, .error (.fetch e))
  | .ok benchmarkQuote =>
    let checkpointDate := previousTradingDayFallback scheduledAt
    if goTrim benchmarkQuote.previousClose = "" then
      persistCheckpoint st state checkpointDate none none [] "skipped"
    else if goTrim benchmarkQuote.tradingDay = "" then
      (st, .error (.missingTradingDay state.benchmarkSymbol))
    else
      match parseDate benchmarkQuote.tradingDay with
      | none => (st, .error (.invalidTradingDay benchmarkQuote.tradingDay))
      | some parsedDate =>
        match fetchPickQuotes env state.picks with
        | .error e => (st, .error e)
        | .ok pickQuotes =>
          if state.picks.any (fun p =>
              goTrim (lookupQuote pickQuotes p.ticker).previousClose == "") then
            persistCheckpoint st state parsedDate none none [] "skipped"
          else
            let benchmarkPrice := goTrim benchmarkQuote.previousClose
            match calculateReturnPct state.benchmarkInitialPrice benchmarkPrice with
            | .error e => (st, .error (.calcErr e))
            | .ok benchmarkReturn =>
              match buildMetrics pickQuotes benchmarkReturn state.picks with
              | .error e => (st, .error (.calcErr e))
              | .ok metrics =>
                persistCheckpoint st state parsedDate (some benchmarkPrice)
                  (some benchmarkReturn) metrics "computed"

theorem countFor_eq_zero_iff (st : StoreState) (b : String) (d : GoTime) :
    countFor st b d = 0 ↔ ¬ hasCheckpoint st b d := by
  unfold countFor hasCheckpoint
  rw [List.length_eq_zero, List.filter_eq_nil_iff]
  constructor
  · intro h ⟨c, hc, hb, hd⟩
    have := h c hc
    simp [hb, hd] at this
  · intro h c hc
    by_contra hcontra
    simp only [Bool.not_eq_false, Bool.and_eq_true, beq_iff_eq] at hcontra
    exact h ⟨c, hc, hcontra.1, hcontra.2⟩

/-- `persistCheckpoint` of a fresh skipped checkpoint: the single row is
appended, nothing else changes, and the call succeeds. -/
theorem persistCheckpoint_skipped_fresh (st : StoreState)
    (state : WeeklyPickState) (date : GoTime)
    (hfresh : countFor st state.batchID date = 0) :
    persistCheckpoint st state date none none [] "skipped" =
      ({ st with
          checkpoints := st.checkpoints ++
            [⟨st.nextID, state.batchID, date, "skipped", none, none⟩],
          nextID := st.nextID + 1 }, .ok ()) := by
  have hnot : ¬ hasCheckpoint st state.batchID date :=
    (countFor_eq_zero_iff st state.batchID date).mp hfresh
  unfold persistCheckpoint CreateCheckpointWithMetrics checkpointInsert
  simp [hnot, insertMetrics]

theorem countFor_append_one (st : StoreState) (b : String) (d : GoTime)
    (row : CheckpointRow) (ms : List MetricRow) (n : Nat)
    (hb : row.batchID = b) (hd : row.checkpointDate = d)
    (hfresh : countFor st b d = 0) :
    countFor ({ st with
      checkpoints := st.checkpoints ++ [row],
      metrics := ms,
      nextID := n }) b d = 1 := by
  unfold countFor at hfresh ⊢
  simp only [List.filter_append, List.length_append]
  rw [hfresh]
  simp [hb, hd]

/-- C3: when the benchmark quote's previous close is blank, the cycle
persists exactly one skipped checkpoint — null benchmark price, null
benchmark return, no metrics — dated at the previous calendar day walked
backward past Saturday and Sunday at midnight, and terminates
successfully. -/
theorem runDailyCheckpoint_benchmark_blank_skips
    (env : DailyEnv) (st : StoreState) (state : WeeklyPickState)
    (t : GoTime) (q : Quote)
    (hq : env.benchmark = .ok q)
    (hblank : goTrim q.previousClose = "")
    (hfresh : countFor st state.batchID (previousTradingDayFallback t) = 0) :
    runDailyCheckpoint env st state t =
      ({ st with
          checkpoints := st.checkpoints ++
            [⟨st.nextID, state.batchID, previousTradingDayFallback t,
              "skipped", none, none⟩],
          nextID := st.nextID + 1 }, .ok ()) ∧
    countFor (runDailyCheckpoint env st state t).1 state.batchID
      (previousTradingDayFallback t) = 1 ∧
    (runDailyCheckpoint env st state t).1.metrics = st.metrics ∧
    (previousTradingDayFallback t).hour = 0 ∧
    (previousTradingDayFallback t).minute = 0 ∧
    isWeekend (previousTradingDayFallback t).day = false ∧
    (previousTradingDayFallback t).day < t.day ∧
    ∀ m, (previousTradingDayFallback t).day < m → m < t.day →
      isWeekend m = true := by
  obtain ⟨hh, hm, hw, hlt, hbetween⟩ := previousTradingDayFallback_spec t
  have hrun : runDailyCheckpoint env st state t =
      persistCheckpoint st state (previousTradingDayFallback t) none none []
        "skipped" := by
    simp only [runDailyCheckpoint, hq]
    rw [if_pos hblank]
  have hpersist := persistCheckpoint_skipped_fresh st state
    (previousTradingDayFallback t) hfresh
  rw [hrun, hpersist]
  refine ⟨rfl, ?_, rfl, hh, hm, hw, hlt, hbetween⟩
  exact countFor_append_one st state.batchID (previousTradingDayFallback t)
    _ _ _ rfl rfl hfresh

/-- Witness for C3: a blank benchmark previous close on a Monday cycle
stores one skipped checkpoint dated the preceding Friday. -/
theorem runDailyCheckpoint_benchmark_blank_skips_witness :
    runDailyCheckpoint
      ⟨.ok ⟨"SPY", "", ""⟩, fun _ => .ok ⟨"", "", ""⟩⟩
      ⟨[], [], [], 0⟩ ⟨"b1", "2025-10-06", "SPY", "600", []⟩ ⟨20367, 9, 0⟩ =
      (⟨[], [⟨0, "b1", ⟨20364, 0, 0⟩, "skipped", none, none⟩], [], 1⟩,
        .ok ()) := by
  have h := runDailyCheckpoint_benchmark_blank_skips
    ⟨.ok ⟨"SPY", "", ""⟩, fun _ => .ok ⟨"", "", ""⟩⟩
    ⟨[], [], [], 0⟩ ⟨"b1", "2025-10-06", "SPY", "600", []⟩ ⟨20367, 9, 0⟩
    ⟨"SPY", "", ""⟩ rfl (by decide) (by decide)
  rw [h.1]
  decide

/-- C4: when the benchmark is present with a valid trading day but some
pick's fetched previous close is blank, the cycle persists exactly one
skipped checkpoint — null benchmark fields, no metrics — dated at the
benchmark quote's reported trading day, and terminates successfully. -/
theorem runDailyCheckpoint_pick_blank_skips
    (env : DailyEnv) (st : StoreState) (state : WeeklyPickState)
    (t : GoTime) (q : Quote) (d : GoTime) (qs : List (String × Quote))
    (hq : env.benchmark = .ok q)
    (hnb : goTrim q.previousClose ≠ "")
    (hntd : goTrim q.tradingDay ≠ "")
    (hpd : parseDate q.tradingDay = some d)
    (hfetch : fetchPickQuotes env state.picks = .ok qs)
    (hblank : ∃ p ∈ state.picks,
      goTrim (lookupQuote qs p.ticker).previousClose = "")
    (hfresh : countFor st state.batchID d = 0) :
    runDailyCheckpoint env st state t =
      ({ st with
          checkpoints := st.checkpoints ++
            [⟨st.nextID, state.batchID, d, "skipped", none, none⟩],
          nextID := st.nextID + 1 }, .ok ()) ∧
    countFor (runDailyCheckpoint env st state t).1 state.batchID d = 1 ∧
    (runDailyCheckpoint env st state t).1.metrics = st.metrics := by
  have hany : state.picks.any (fun p =>
      goTrim (lookupQuote qs p.ticker).previousClose == "") = true := by
    rw [List.any_eq_true]
    obtain ⟨p, hp, hbl⟩ := hblank
    exact ⟨p, hp, by simp [hbl]⟩
  have hrun : runDailyCheckpoint env st state t =
      persistCheckpoint st state d none none [] "skipped" := by
    simp only [runDailyCheckpoint, hq]
    rw [if_neg hnb, if_neg hntd]
    simp only [hpd, hfetch]
    rw [if_pos hany]
  have hpersist := persistCheckpoint_skipped_fresh st state d hfresh
  rw [hrun, hpersist]
  refine ⟨rfl, ?_, rfl⟩
  exact countFor_append_one st state.batchID d _ _ _ rfl rfl hfresh

/-- Witness for C4: a pick with a blank previous close turns the cycle
into one skipped checkpoint at the benchmark's trading day. -/
theorem runDailyCheckpoint_pick_blank_skips_witness :
    runDailyCheckpoint
      ⟨.ok ⟨"SPY", "600", "2025-10-06"⟩, fun _ => .ok ⟨"AAPL", "", ""⟩⟩
      ⟨[], [], [], 0⟩
      ⟨"b1", "2025-10-06", "SPY", "600", [⟨"p1", "AAPL", "BUY", "r", "100"⟩]⟩
      ⟨20367, 9, 0⟩ =
      (⟨[], [⟨0, "b1", ⟨20367, 0, 0⟩, "skipped", none, none⟩], [], 1⟩,
        .ok ()) := by
  have h := runDailyCheckpoint_pick_blank_skips
    ⟨.ok ⟨"SPY", "600", "2025-10-06"⟩, fun _ => .ok ⟨"AAPL", "", ""⟩⟩
    ⟨[], [], [], 0⟩
    ⟨"b1", "2025-10-06", "SPY", "600", [⟨"p1", "AAPL", "BUY", "r", "100"⟩]⟩
    ⟨20367, 9, 0⟩ ⟨"SPY", "600", "2025-10-06"⟩ ⟨20367, 0, 0⟩
    [("AAPL", ⟨"AAPL", "", ""⟩)] rfl (by decide) (by decide) (by decide)
    (by decide) ⟨⟨"p1", "AAPL", "BUY", "r", "100"⟩, by decide, by decide⟩
    (by decide)
  rw [h.1]
  decide

/-- C8: a benchmark quote with a non-blank previous close but a blank
trading day aborts the cycle with an error; no checkpoint is
persisted. -/
theorem runDailyCheckpoint_missing_trading_day
    (env : DailyEnv) (st : StoreState) (state : WeeklyPickState)
    (t : GoTime) (q : Quote)
    (hq : env.benchmark = .ok q)
    (hnb : goTrim q.previousClose ≠ "")
    (htd : goTrim q.tradingDay = "") :
    runDailyCheckpoint env st state t =
      (st, .error (.missingTradingDay state.benchmarkSymbol)) := by
  simp only [runDailyCheckpoint, hq]
  rw [if_neg hnb, if_pos htd]

/-- Witness for C8: a present price with an absent trading day is a hard
error, not a skip. -/
theorem runDailyCheckpoint_missing_trading_day_witness :
    runDailyCheckpoint
      ⟨.ok ⟨"SPY", "600", " "⟩, fun _ => .ok ⟨"", "", ""⟩⟩
      ⟨[], [], [], 0⟩ ⟨"b1", "2025-10-06", "SPY", "600", []⟩ ⟨20367, 9, 0⟩ =
      (⟨[], [], [], 0⟩, .error (.missingTradingDay "SPY")) :=
  runDailyCheckpoint_missing_trading_day
    ⟨.ok ⟨"SPY", "600", " "⟩, fun _ => .ok ⟨"", "", ""⟩⟩
    ⟨[], [], [], 0⟩ ⟨"b1", "2025-10-06", "SPY", "600", []⟩ ⟨20367, 9, 0⟩
    ⟨"SPY", "600", " "⟩ rfl (by decide) (by decide)

/-- `dailyCheckpointDays` of `internal/worker/steps.go`. -/
def dailyCheckpointDays : Nat := 14

/-- `dailyCheckpointHour` of `internal/worker/steps.go`. -/
def dailyCheckpointHour : Int := 9

/-- `dailyCheckpointMinute` of `internal/worker/steps.go`. -/
def dailyCheckpointMinute : Int := 0

/-- `batchStatusCompleted` of `internal/worker/steps.go`. -/
def batchStatusCompleted : String := "completed"

/-- Observable actions of the daily scheduling loop: invoking one daily
cycle, and invoking the batch status update.  The trace of events is
observational instrumentation recording when `runDailyCheckpoints` calls
into these operations. -/
inductive Event where
  | cycle (day : Nat)
  | batchStatusUpdated (batchID status : String)
deriving DecidableEq, Repr

/-- The environment of the 14-day loop: the quote fetches of each day's
cycle and the outcome of each day's durable sleep (`SleepUntil` returns
an error only when the durable context reports one; `none` is the normal
return, including the resume-after-target case where no waiting
happens). -/
structure LoopEnv where
  daily : Nat → DailyEnv
  sleepResult : Nat → Option String

/-- The `for day := 0; day < dailyCheckpointDays; day++` loop of
`runDailyCheckpoints`: per day, sleep until the scheduled instant
(`base.AddDate(0, 0, day)`), then run the cycle; any error aborts the
loop. -/
def loopDays (env : LoopEnv) (state : WeeklyPickState) (base : GoTime) :
    List Nat → StoreState → StoreState × List Event × Except WErr Unit
  | [], st => (st, [], .ok ())
  | day :: rest, st =>
    match env.sleepResult day with
    | some e => (st, [], .error (.sleepErr e))
    | none =>
      match runDailyCheckpoint (env.daily day) st state
          ⟨base.day + day, base.hour, base.minute⟩ with
      | (st2, .error e) => (st2, [Event.cycle day], .error e)
      | (st2, .ok _) =>
        let r := loopDays env state base rest st2
        (r.1, Event.cycle day :: r.2.1, r.2.2)

/-- `runDailyCheckpoints` of `internal/worker/steps.go`: parse the run
date (the America/New_York time zone load never fails and only fixes the
civil date, which `parseDate` already captures), run the 14 daily cycles
from the 09:00 base instant, then transition the batch to `completed`. -/
def runDailyCheckpoints (env : LoopEnv) (state : WeeklyPickState)
    (st : StoreState) : StoreState × List Event × Except WErr Unit :=
  match parseDate state.runDate with
  | none => (st, [], .error (.invalidRunDate state.runDate))
  | some runDate =>
    let base : GoTime := ⟨runDate.day, dailyCheckpointHour, dailyCheckpointMinute⟩
    let r := loopDays env state base (List.range dailyCheckpointDays) st
    match r.2.2 with
    | .error e => (r.1, r.2.1, .error e)
    | .ok _ =>
      let u := UpdateBatchStatus r.1 state.batchID batchStatusCompleted
      match u.2 with
      | .ok _ =>
        (u.1, r.2.1 ++
          [Event.batchStatusUpdated state.batchID batchStatusCompleted],
          .ok ())
      | .error e =>
        (u.1, r.2.1 ++
          [Event.batchStatusUpdated state.batchID batchStatusCompleted],
          .error (.updateStatus e))

theorem loopDays_trace (env : LoopEnv) (state : WeeklyPickState)
    (base : GoTime) :
    ∀ days st,
      ((loopDays env state base days st).2.2 = .ok () →
        (loopDays env state base days st).2.1 = days.map Event.cycle) ∧
      (∀ e, (loopDays env state base days st).2.2 = .error e →
        ∃ k, k ≤ days.length ∧
          (loopDays env state base days st).2.1 =
            (days.take k).map Event.cycle) := by
  intro days
  induction days with
  | nil =>
    intro st
    constructor
    · intro _
      rfl
    · intro e h
      simp [loopDays] at h
  | cons day rest ih =>
    intro st
    cases hs : env.sleepResult day with
    | some e =>
      constructor
      · intro h
        simp [loopDays, hs] at h
      · intro e' _
        refine ⟨0, by omega, ?_⟩
        simp only [loopDays, hs]
        rfl
    | none =>
      rcases hr : runDailyCheckpoint (env.daily day) st state
          ⟨base.day + day, base.hour, base.minute⟩ with ⟨st2, res2⟩
      cases res2 with
      | error e =>
        constructor
        · intro h
          simp [loopDays, hs, hr] at h
        · intro e' _
          refine ⟨1, by simp, ?_⟩
          simp only [loopDays, hs, hr]
          rfl
      | ok u =>
        cases u
        constructor
        · intro h
          simp only [loopDays, hs, hr] at h ⊢
          rw [(ih st2).1 h]
          simp
        · intro e h
          simp only [loopDays, hs, hr] at h ⊢
          obtain ⟨k, hk, htr⟩ := (ih st2).2 e h
          refine ⟨k + 1, by simp; omega, ?_⟩
          simp only [List.take_succ_cons, List.map_cons, htr]

theorem batchStatusUpdated_not_mem_cycles (l : List Nat)
    (bid s : String) : Event.batchStatusUpdated bid s ∉ l.map Event.cycle := by
  intro h
  obtain ⟨x, -, hx⟩ := List.mem_map.mp h
  exact absurd hx (by simp)

/-- C5: `runDailyCheckpoints` executes exactly 14 daily cycles (days 0
through 13) and invokes `UpdateBatchStatus` — transitioning the batch to
`completed` — exactly once, after the loop, if and only if every cycle
returned without error; any error aborts the loop before the status
update. -/
theorem runDailyCheckpoints_completion (env : LoopEnv)
    (state : WeeklyPickState) (st : StoreState) :
    ((runDailyCheckpoints env state st).2.2 = .ok () →
      (runDailyCheckpoints env state st).2.1 =
        (List.range dailyCheckpointDays).map Event.cycle ++
          [Event.batchStatusUpdated state.batchID batchStatusCompleted] ∧
      ∀ b ∈ (runDailyCheckpoints env state st).1.batches,
        b.id = state.batchID → b.status = batchStatusCompleted) ∧
    (∀ e, (runDailyCheckpoints env state st).2.2 = .error e →
      (∃ k, k ≤ dailyCheckpointDays ∧
        (runDailyCheckpoints env state st).2.1 =
          (List.range k).map Event.cycle) ∧
      ∀ bid s, Event.batchStatusUpdated bid s ∉
        (runDailyCheckpoints env state st).2.1) ∧
    ((runDailyCheckpoints env state st).2.2 = .ok () ↔
      Event.batchStatusUpdated state.batchID batchStatusCompleted ∈
        (runDailyCheckpoints env state st).2.1) := by
  cases hp : parseDate state.runDate with
  | none =>
    refine ⟨?_, ?_, ?_⟩
    · intro h
      simp [runDailyCheckpoints, hp] at h
    · intro e _
      refine ⟨⟨0, by omega, ?_⟩, ?_⟩
      · simp only [runDailyCheckpoints, hp]
        rfl
      · intro bid s
        simp only [runDailyCheckpoints, hp]
        simp
    · simp only [runDailyCheckpoints, hp]
      simp
  | some runDate =>
    have htr := loopDays_trace env state
      ⟨runDate.day, dailyCheckpointHour, dailyCheckpointMinute⟩
      (List.range dailyCheckpointDays) st
    rcases hres : (loopDays env state
        ⟨runDate.day, dailyCheckpointHour, dailyCheckpointMinute⟩
        (List.range dailyCheckpointDays) st).2.2 with e | u
    · refine ⟨?_, ?_, ?_⟩
      · intro h
        simp [runDailyCheckpoints, hp, hres] at h
      · intro e' he'
        obtain ⟨k, hk, hevs⟩ := htr.2 e hres
        refine ⟨⟨k, by simpa using hk, ?_⟩, ?_⟩
        · simp only [runDailyCheckpoints, hp, hres]
          rw [hevs, List.take_range, min_eq_left (by simpa using hk)]
        · intro bid s
          simp only [runDailyCheckpoints, hp, hres]
          rw [hevs]
          intro hmem
          exact batchStatusUpdated_not_mem_cycles _ bid s hmem
      · constructor
        · intro h
          simp [runDailyCheckpoints, hp, hres] at h
        · intro h
          obtain ⟨k, hk, hevs⟩ := htr.2 e hres
          simp only [runDailyCheckpoints, hp, hres] at h
          rw [hevs] at h
          exact absurd h (batchStatusUpdated_not_mem_cycles _ _ _)
    · cases u
      have hevs := htr.1 hres
      have hok : (runDailyCheckpoints env state st).2.2 = .ok () := by
        simp only [runDailyCheckpoints, hp, hres, UpdateBatchStatus]
      have htrace : (runDailyCheckpoints env state st).2.1 =
          (List.range dailyCheckpointDays).map Event.cycle ++
            [Event.batchStatusUpdated state.batchID batchStatusCompleted] := by
        simp only [runDailyCheckpoints, hp, hres, UpdateBatchStatus]
        rw [hevs]
      refine ⟨?_, ?_, ?_⟩
      · intro _
        refine ⟨htrace, ?_⟩
        intro b hb hid
        simp only [runDailyCheckpoints, hp, hres, UpdateBatchStatus] at hb
        obtain ⟨a, -, rfl⟩ := List.mem_map.mp hb
        by_cases ha : a.id = state.batchID
        · rw [if_pos ha]
        · rw [if_neg ha] at hid ⊢
          exact absurd hid ha
      · intro e he
        rw [hok] at he
        exact absurd he (by simp)
      · constructor
        · intro _
          rw [htrace]
          simp
        · intro _
          exact hok

/-- Environment for the C5 witness: every day's benchmark quote has a
blank previous close (each cycle persists or re-encounters a skipped
checkpoint and succeeds) and every durable sleep succeeds. -/
def loopEnvW : LoopEnv :=
  ⟨fun _ => ⟨.ok ⟨"SPY", "", ""⟩, fun _ => .ok ⟨"", "", ""⟩⟩, fun _ => none⟩

/-- Witness for C5: a full 14-day run emits exactly cycles 0..13 followed
by one `completed` status update, and the stored batch ends
`completed`. -/
theorem runDailyCheckpoints_completion_witness :
    (runDailyCheckpoints loopEnvW ⟨"b1", "2025-10-06", "SPY", "600", []⟩
      ⟨[⟨"b1", "active"⟩], [], [], 0⟩).2.2 = .ok () ∧
    (runDailyCheckpoints loopEnvW ⟨"b1", "2025-10-06", "SPY", "600", []⟩
      ⟨[⟨"b1", "active"⟩], [], [], 0⟩).2.1 =
      (List.range 14).map Event.cycle ++
        [Event.batchStatusUpdated "b1" "completed"] ∧
    ∀ b ∈ (runDailyCheckpoints loopEnvW ⟨"b1", "2025-10-06", "SPY", "600", []⟩
      ⟨[⟨"b1", "active"⟩], [], [], 0⟩).1.batches,
      b.id = "b1" → b.status = "completed" := by
  have h := runDailyCheckpoints_completion loopEnvW
    ⟨"b1", "2025-10-06", "SPY", "600", []⟩ ⟨[⟨"b1", "active"⟩], [], [], 0⟩
  have hok : (runDailyCheckpoints loopEnvW
      ⟨"b1", "2025-10-06", "SPY", "600", []⟩
      ⟨[⟨"b1", "active"⟩], [], [], 0⟩).2.2 = .ok () := by decide
  have h2 := h.1 hok
  exact ⟨hok, h2.1, h2.2⟩

/-- `retry.Config` of `internal/integrations/retry/retry.go`.  Delays are
`time.Duration` (int64 nanoseconds), modelled as `Int`; the jitter
fraction is a float, modelled as `Rat` (exact for every configuration
this development evaluates, where the jitter path is never taken). -/
structure RetryConfig where
  maxAttempts : Int
  baseDelay : Int
  maxDelay : Int
  jitter : Rat
deriving Repr

/-- `nextDelay` of `retry.go`: exponential backoff
`baseDelay << (attempt - 1)` capped at `maxDelay`, plus a sampled jitter
fraction, capped again.  `sample` is the `rng.Float64()` draw in
`[0, 1)`; `time.Duration(float)` truncation is `Int.floor` on the
non-negative values involved.  (The int64 overflow of the shift is not
modelled; no configuration in this development comes near it.) -/
def nextDelay (cfg : RetryConfig) (attempt : Nat) (sample : Rat) : Int :=
  if cfg.baseDelay ≤ 0 then 0
  else
    let att := if attempt < 1 then 1 else attempt
    let delay := cfg.baseDelay * 2 ^ (att - 1)
    let delay := if 0 < cfg.maxDelay ∧ cfg.maxDelay < delay then cfg.maxDelay else delay
    let delay := if 0 < cfg.jitter ∧ 0 < delay then
        delay + Int.floor (sample * cfg.jitter * (delay : Rat))
      else delay
    if 0 < cfg.maxDelay ∧ cfg.maxDelay < delay then cfg.maxDelay else delay

/-- The effective attempt bound of `retry.Do`: `maxAttempts`, raised to 1
when non-positive. -/
def maxAttemptsOf (cfg : RetryConfig) : Nat :=
  if cfg.maxAttempts < 1 then 1 else cfg.maxAttempts.toNat

/-- The `for attempt := 1; attempt <= maxAttempts; attempt++` loop of
`retry.Do` over an error type `ε` (Go's `error` interface).  `ctxErr k`
is what `ctx.Err()` returns when attempt `k` would start; `sleepResult k`
is the outcome of the backoff sleep after attempt `k` (`some` when the
context is cancelled during the sleep); `sample k` is the jitter draw.
The result pairs the returned error (`none` is success) with the number
of operation invocations — the observational count the specification
speaks about.  The fuel `rem` counts the remaining attempts,
`maxA + 1 - attempt`; at fuel 0 the loop has exceeded `maxAttempts` and
returns `lastErr` (unreachable for `maxA ≥ 1`, like the final
`return lastErr` of the Go code). -/
def Retry.loop {ε : Type} (ctxErr sleepResult : Nat → Option ε)
    (sample : Nat → Rat) (cfg : RetryConfig) (shouldRetry : ε → Bool)
    (fn : Nat → Option ε) (maxA : Nat) :
    Nat → Nat → Option ε → Nat → Option ε × Nat
  | 0, _, lastErr, count => (lastErr, count)
  | rem + 1, attempt, _lastErr, count =>
    match ctxErr attempt with
    | some e => (some e, count)
    | none =>
      match fn attempt with
      | none => (none, count + 1)
      | some err =>
        if attempt = maxA ∨ shouldRetry err = false then (some err, count + 1)
        else if 0 < nextDelay cfg attempt (sample attempt) then
          match sleepResult attempt with
          | some e => (some e, count + 1)
          | none => Retry.loop ctxErr sleepResult sample cfg shouldRetry fn
              maxA rem (attempt + 1) (some err) (count + 1)
        else Retry.loop ctxErr sleepResult sample cfg shouldRetry fn
          maxA rem (attempt + 1) (some err) (count + 1)

/-- `retry.Do` of `internal/integrations/retry/retry.go`: a `nil`
operation succeeds immediately; a `nil` predicate retries nothing; the
attempt loop starts at attempt 1 with no invocations performed. -/
def Retry.Do {ε : Type} (ctxErr sleepResult : Nat → Option ε)
    (sample : Nat → Rat) (cfg : RetryConfig)
    (shouldRetry : Option (ε → Bool)) (fn : Option (Nat → Option ε)) :
    Option ε × Nat :=
  match fn with
  | none => (none, 0)
  | some f =>
    let maxA := maxAttemptsOf cfg
    let sr := match shouldRetry with
      | none => fun _ => false
      | some p => p
    Retry.loop ctxErr sleepResult sample cfg sr f maxA maxA 1 none 0

theorem Retry.loop_success_run {ε : Type} (C S : Nat → Option ε)
    (M : Nat → Rat) (cfg : RetryConfig) (sr : ε → Bool)
    (fn : Nat → Option ε) (n : Nat) (err : Nat → ε)
    (hbd : cfg.baseDelay ≤ 0)
    (hctx : ∀ k, C k = none)
    (hfn : ∀ k, 1 ≤ k → k < n → fn k = some (err k) ∧ sr (err k) = true)
    (hsucc : fn n = none) :
    ∀ rem attempt lastErr count maxA, 1 ≤ attempt → attempt ≤ n →
      attempt + rem = maxA + 1 → n ≤ maxA →
      Retry.loop C S M cfg sr fn maxA rem attempt lastErr count =
        (none, count + (n - attempt) + 1) := by
  intro rem
  induction rem with
  | zero =>
    intro attempt lastErr count maxA h1 h2 h3 h4
    omega
  | succ rem ih =>
    intro attempt lastErr count maxA h1 h2 h3 h4
    by_cases heq : attempt = n
    · subst heq
      simp only [Retry.loop, hctx, hsucc]
      refine Prod.ext rfl ?_
      show count + 1 = count + (attempt - attempt) + 1
      omega
    · have hlt : attempt < n := by omega
      obtain ⟨hfa, hsa⟩ := hfn attempt h1 hlt
      have hnd : nextDelay cfg attempt (M attempt) = 0 := by
        unfold nextDelay
        rw [if_pos hbd]
      have hne : ¬ (attempt = maxA ∨ sr (err attempt) = false) := by
        push_neg
        refine ⟨by omega, ?_⟩
        rw [hsa]
        simp
      simp only [Retry.loop, hctx, hfa, if_neg hne, hnd]
      rw [if_neg (by omega)]
      rw [ih (attempt + 1) (some (err attempt)) (count + 1) maxA
        (by omega) (by omega) (by omega) h4]
      refine Prod.ext rfl ?_
      show count + 1 + (n - (attempt + 1)) + 1 = count + (n - attempt) + 1
      omega

theorem Retry.loop_nonretryable {ε : Type} (C S : Nat → Option ε)
    (M : Nat → Rat) (cfg : RetryConfig) (sr : ε → Bool)
    (fn : Nat → Option ε) (maxA rem attempt count : Nat)
    (lastErr : Option ε) (err : ε)
    (hctx : C attempt = none) (hfn : fn attempt = some err)
    (hsr : sr err = false) :
    Retry.loop C S M cfg sr fn maxA (rem + 1) attempt lastErr count =
      (some err, count + 1) := by
  simp only [Retry.loop, hctx, hfn]
  rw [if_pos (Or.inr hsr)]

/-- C6: under policy `maxAttempts = 3`, `baseDelay = 0`, an operation
failing with retryable errors on its first two invocations and
succeeding on the third makes `retry.Do` succeed after exactly 3
invocations; an operation failing with a non-retryable error makes
`retry.Do` return that error after exactly 1 invocation. -/
theorem retry_do_attempt_counts {ε : Type} (maxDelay : Int) (jitter : Rat)
    (sample : Nat → Rat) (sleepResult : Nat → Option ε)
    (sr : ε → Bool) (fn : Nat → Option ε) :
    (∀ e1 e2, fn 1 = some e1 → fn 2 = some e2 → fn 3 = none →
      sr e1 = true → sr e2 = true →
      Retry.Do (fun _ => none) sleepResult sample
        ⟨3, 0, maxDelay, jitter⟩ (some sr) (some fn) = (none, 3)) ∧
    (∀ e, fn 1 = some e → sr e = false →
      Retry.Do (fun _ => none) sleepResult sample
        ⟨3, 0, maxDelay, jitter⟩ (some sr) (some fn) = (some e, 1)) := by
  have hDo : Retry.Do (fun _ => none) sleepResult sample
      ⟨3, 0, maxDelay, jitter⟩ (some sr) (some fn) =
      Retry.loop (fun _ => none) sleepResult sample
        ⟨3, 0, maxDelay, jitter⟩ sr fn 3 3 1 none 0 := rfl
  constructor
  · intro e1 e2 h1 h2 h3 hs1 hs2
    rw [hDo]
    have hrun := Retry.loop_success_run (fun _ => none) sleepResult sample
      ⟨3, 0, maxDelay, jitter⟩ sr fn 3
      (fun k => if k = 1 then e1 else e2)
      (by norm_num) (fun _ => rfl) ?_ h3 3 1 none 0 3
      (by omega) (by omega) (by omega) (by omega)
    · rw [hrun]
    · intro k hk1 hk2
      interval_cases k
      · simpa using ⟨h1, hs1⟩
      · simpa using ⟨h2, hs2⟩
  · intro e h1 hs
    rw [hDo]
    exact Retry.loop_nonretryable (fun _ => none) sleepResult sample
      ⟨3, 0, maxDelay, jitter⟩ sr fn 3 2 1 0 none e rfl h1 hs

/-- Witness for C6: two transient failures then success yield exactly 3
invocations; a non-retryable failure yields exactly 1. -/
theorem retry_do_attempt_counts_witness :
    Retry.Do (ε := Nat) (fun _ => none) (fun _ => none) (fun _ => 0)
      ⟨3, 0, 0, 0⟩ (some (fun _ => true))
      (some (fun k => if k = 3 then none else some k)) = (none, 3) ∧
    Retry.Do (ε := Nat) (fun _ => none) (fun _ => none) (fun _ => 0)
      ⟨3, 0, 0, 0⟩ (some (fun _ => false)) (some (fun _ => some 9)) =
      (some 9, 1) := by
  constructor
  · exact (retry_do_attempt_counts 0 0 (fun _ => 0) (fun _ => none)
      (fun _ => true) (fun k => if k = 3 then none else some k)).1
      1 2 rfl rfl rfl rfl rfl
  · exact (retry_do_attempt_counts 0 0 (fun _ => 0) (fun _ => none)
      (fun _ => false) (fun _ => some 9)).2 9 rfl rfl

theorem Retry.loop_ctx_cancelled {ε : Type} (C S : Nat → Option ε)
    (M : Nat → Rat) (cfg : RetryConfig) (sr : ε → Bool)
    (fn : Nat → Option ε) (maxA rem attempt count : Nat)
    (lastErr : Option ε) (e : ε) (hctx : C attempt = some e) :
    Retry.loop C S M cfg sr fn maxA (rem + 1) attempt lastErr count =
      (some e, count) := by
  simp only [Retry.loop, hctx]

theorem Retry.loop_cancelFrom {ε : Type} (S : Nat → Option ε)
    (M : Nat → Rat) (cfg : RetryConfig) (sr : ε → Bool)
    (fn : Nat → Option ε) (e : ε) (n : Nat) (err : Nat → ε)
    (hbd : cfg.baseDelay ≤ 0)
    (hfn : ∀ k, 1 ≤ k → k < n → fn k = some (err k) ∧ sr (err k) = true) :
    ∀ rem attempt lastErr count maxA, 1 ≤ attempt → attempt ≤ n →
      attempt + rem = maxA + 1 → n ≤ maxA →
      Retry.loop (fun k => if k < n then none else some e) S M cfg sr fn
        maxA rem attempt lastErr count = (some e, count + (n - attempt)) := by
  intro rem
  induction rem with
  | zero =>
    intro attempt lastErr count maxA h1 h2 h3 h4
    omega
  | succ rem ih =>
    intro attempt lastErr count maxA h1 h2 h3 h4
    by_cases heq : attempt = n
    · subst heq
      have hctx : (fun k => if k < attempt then (none : Option ε)
          else some e) attempt = some e := by
        simp
      simp only [Retry.loop, hctx]
      refine Prod.ext rfl ?_
      show count = count + (attempt - attempt)
      omega
    · have hlt : attempt < n := by omega
      obtain ⟨hfa, hsa⟩ := hfn attempt h1 hlt
      have hctx : (fun k => if k < n then none else some e) attempt = none := by
        simp only [if_pos hlt]
      have hnd : nextDelay cfg attempt (M attempt) = 0 := by
        unfold nextDelay
        rw [if_pos hbd]
      have hne : ¬ (attempt = maxA ∨ sr (err attempt) = false) := by
        push_neg
        refine ⟨by omega, ?_⟩
        rw [hsa]
        simp
      simp only [Retry.loop, hctx, hfa, if_neg hne, hnd]
      rw [if_neg (by omega)]
      rw [ih (attempt + 1) (some (err attempt)) (count + 1) maxA
        (by omega) (by omega) (by omega) h4]
      refine Prod.ext rfl ?_
      show count + 1 + (n - (attempt + 1)) = count + (n - attempt)
      omega

/-- C9: a context already cancelled when `retry.Do` is entered makes it
return the context's error with the operation never invoked, for every
configuration and operation; and a context that becomes cancelled when
attempt `n` would start (after `n - 1` retryable failures with no
backoff delay) makes it return the context's error without invoking the
operation for that attempt. -/
theorem retry_do_honors_cancellation {ε : Type} (cfg : RetryConfig)
    (sleepResult : Nat → Option ε) (sample : Nat → Rat) (sr : ε → Bool)
    (fn : Nat → Option ε) (e : ε) :
    Retry.Do (fun _ => some e) sleepResult sample cfg (some sr) (some fn) =
      (some e, 0) ∧
    (∀ (n : Nat) (err : Nat → ε), 1 ≤ n → n ≤ maxAttemptsOf cfg →
      cfg.baseDelay ≤ 0 →
      (∀ k, 1 ≤ k → k < n → fn k = some (err k) ∧ sr (err k) = true) →
      Retry.Do (fun k => if k < n then none else some e) sleepResult sample
        cfg (some sr) (some fn) = (some e, n - 1)) := by
  obtain ⟨m, hm⟩ : ∃ m, maxAttemptsOf cfg = m + 1 := by
    unfold maxAttemptsOf
    split
    · exact ⟨0, rfl⟩
    · rename_i hge
      exact ⟨cfg.maxAttempts.toNat - 1, by omega⟩
  constructor
  · show Retry.loop (fun _ => some e) sleepResult sample cfg sr fn
      (maxAttemptsOf cfg) (maxAttemptsOf cfg) 1 none 0 = (some e, 0)
    rw [hm]
    exact Retry.loop_ctx_cancelled (fun _ => some e) sleepResult sample cfg
      sr fn (m + 1) m 1 0 none e rfl
  · intro n err hn1 hn2 hbd hfn
    show Retry.loop (fun k => if k < n then none else some e) sleepResult
      sample cfg sr fn (maxAttemptsOf cfg) (maxAttemptsOf cfg) 1 none 0 =
      (some e, n - 1)
    have := Retry.loop_cancelFrom sleepResult sample cfg sr fn e n err hbd
      hfn (maxAttemptsOf cfg) 1 none 0 (maxAttemptsOf cfg)
      (by omega) hn1 (by omega) hn2
    rw [this]
    refine Prod.ext rfl ?_
    show 0 + (n - 1) = n - 1
    omega

/-- Witness for C9: an already-cancelled context returns its error with
zero invocations; a context cancelled from attempt 2 on returns it after
one invocation. -/
theorem retry_do_honors_cancellation_witness :
    Retry.Do (ε := Nat) (fun _ => some 5) (fun _ => none) (fun _ => 0)
      ⟨3, 0, 0, 0⟩ (some (fun _ => true)) (some (fun _ => some 7)) =
      (some 5, 0) ∧
    Retry.Do (ε := Nat) (fun k => if k < 2 then none else some 5)
      (fun _ => none) (fun _ => 0) ⟨3, 0, 0, 0⟩ (some (fun _ => true))
      (some (fun _ => some 7)) = (some 5, 1) := by
  have h := retry_do_honors_cancellation (ε := Nat) ⟨3, 0, 0, 0⟩
    (fun _ => none) (fun _ => 0) (fun _ => true) (fun _ => some 7) 5
  exact ⟨h.1, h.2 2 (fun _ => 7) (by omega) (by decide) (by decide)
    (fun k h1 h2 => ⟨rfl, rfl⟩)⟩

-- Concrete evaluations of the calendar embedding (epoch, leap years,
-- format validation, weekend fallback).
example : daysFromCivil 1970 1 1 = 0 := by decide
example : parseDate "2025-10-06" = some ⟨20367, 0, 0⟩ := by decide
example : goWeekday 20367 = 1 := by decide
example : parseDate "2000-02-29" = some ⟨11016, 0, 0⟩ := by decide
example : parseDate "2001-02-29" = none := by decide
example : parseDate "1999-12-31" = some ⟨10956, 0, 0⟩ := by decide
example : parseDate "1999-13-01" = none := by decide
example : parseDate "1999-1-01" = none := by decide
example : previousTradingDayFallback ⟨20367, 9, 0⟩ = ⟨20364, 0, 0⟩ := by decide
example : previousTradingDayFallback ⟨20368, 9, 0⟩ = ⟨20367, 0, 0⟩ := by decide

-- Concrete evaluations of the decimal embedding, including the
-- specification's concrete scenario (-5.00000000 / 10.00000000 /
-- 15.00000000) and the rounding of repeating expansions.
example : parseDecimal "100" = .ok ⟨100, 1⟩ := by decide
example : parseDecimal " 100.50 " = .ok ⟨10050, 100⟩ := by decide
example : parseDecimal "1.5e2" = .ok ⟨150, 1⟩ := by decide
example : parseDecimal "3/4" = .ok ⟨3, 4⟩ := by decide
example : calculateReturnPct "100" "95" = .ok "-5.00000000" := by decide
example : calculateReturnPct "50" "55" = .ok "10.00000000" := by decide
example : subtractDecimalStrings "10.00000000" "-5.00000000" = .ok "15.00000000" := by decide
example : calculateReturnPct "0" "95" = .error "initial value must be positive" := by decide
example : calculateReturnPct "abc" "95" = .error "invalid decimal abc" := by decide
example : calculateReturnPct "100" "" = .error "value is required" := by decide
example : parseDecimal "1/0" = .error "invalid decimal 1/0" := by decide
example : parseDecimal "-0.5" = .ok ⟨-5, 10⟩ := by decide
example : calculateReturnPct "3" "4" = .ok "33.33333333" := by decide
example : calculateReturnPct "3" "5" = .ok "66.66666667" := by decide
